import Mathlib

/-!
Verification of `scripts/block-import-stats.py` (nimbus-eth1).

The script compares two block-import benchmark CSV files (baseline and
contender).  We give a shallow embedding of its pipeline: the loader
(`readStats`), the range aligner (overlap check, range restriction,
outer merge on `(block_number, blocks)`, index interpolation, reindex
onto the contender index), the trailing-window trim, the delta
calculator, and the binned aggregator (`formatBins` + `agg`).

Floating point values are modelled as exact rationals; pandas NaN cells
are modelled as `Option` values.  Python `exit`/exception behaviour is
modelled by the boolean conditions guarding it.
-/

/-- Truncation toward zero of a rational, as performed by numpy's
`dtype=int` cast in `np.linspace(..., dtype=int)`. -/
def truncQ (q : ℚ) : Int :=
  if 0 ≤ q then ⌊q⌋ else -⌊-q⌋

/-- One raw CSV row as read by `pd.read_csv`: columns
`block_number, blocks, txs, gas, time` (`time` in nanoseconds). -/
structure RawRow where
  block_number : Int
  blocks : Int
  txs : ℚ
  gas : ℚ
  time : ℚ
deriving DecidableEq, Repr

/-- One row of the loaded series produced by `readStats`: the `gas`
column is dropped (it has no field here), `time` is in seconds, and
`bps`/`tps` are the derived throughput columns. -/
structure SRow where
  block_number : Int
  blocks : Int
  txs : ℚ
  time : ℚ
  bps : ℚ
  tps : ℚ
deriving DecidableEq, Repr

/-- Model of `readStats` (source lines 14-23): set the index to `block_number`,
divide `time` by 1e9, drop `gas`, and add `bps = blocks / time`,
`tps = txs / time`. -/
def readStats (rows : List RawRow) : List SRow :=
  rows.map (fun r =>
    let t := r.time / 1000000000
    { block_number := r.block_number
      blocks := r.blocks
      txs := r.txs
      time := t
      bps := (r.blocks : ℚ) / t
      tps := r.txs / t })

/-- Minimum over a pandas index, as in `min(baseline.index)`.  Pandas
raises on an empty index; the `[]` case is unreachable in the claims. -/
def listMin : List Int → Int
  | [] => 0
  | x :: xs => xs.foldl min x

/-- Maximum over a pandas index, as in `max(baseline.index)`. -/
def listMax : List Int → Int
  | [] => 0
  | x :: xs => xs.foldl max x

/-- Model of `start = max(min(baseline.index), min(contender.index))`
(source line 130). -/
def startOf (bIdx cIdx : List Int) : Int :=
  max (listMin bIdx) (listMin cIdx)

/-- Model of `end = min(max(baseline.index), max(contender.index))`
(source line 131). -/
def endOf (bIdx cIdx : List Int) : Int :=
  min (listMax bIdx) (listMax cIdx)

/-- The no-overlap guard of source line 134:
`start > max(max(baseline.index), max(contender.index)) or
 end < min(min(baseline.index), min(contender.index))`.
When this evaluates to true, the script prints both ranges and calls
`exit(1)`. -/
def overlapErrorTriggers (bIdx cIdx : List Int) : Bool :=
  startOf bIdx cIdx > max (listMax bIdx) (listMax cIdx) ||
  endOf bIdx cIdx < min (listMin bIdx) (listMin cIdx)

/-- The option strings registered on the `argparse` parser in `main`
(source lines 110-123); the two positionals are `baseline` and
`contender`. -/
def cliOptions : List String :=
  ["--plot", "--markdown-output", "--bins", "--min-block-number"]

/-- One aligned row of the merged frame after `reset_index`
(source line 147): the contender-index row carrying both sides'
columns, `_x` = baseline and `_y` = contender. -/
structure ARow where
  block_number : Int
  blocks : Int
  txs_x : ℚ
  time_x : ℚ
  bps_x : ℚ
  tps_x : ℚ
  txs_y : ℚ
  time_y : ℚ
  bps_y : ℚ
  tps_y : ℚ
deriving DecidableEq, Repr

/-- The trailing-window trim of source lines 149-154:
if `df.block_number.iloc[-1] > min_block_number + df.block_number.iloc[0]`
then keep only the rows with
`block_number >= min(iloc[-1] - min_block_number, min_block_number)`.
Pandas `iloc` raises on an empty frame; the empty case is unreachable
in the claims. -/
def trim (min_block_number : Int) (rows : List ARow) : List ARow :=
  match rows.head?, rows.getLast? with
  | some f, some l =>
    if l.block_number > min_block_number + f.block_number then
      rows.filter (fun r =>
        r.block_number ≥ min (l.block_number - min_block_number) min_block_number)
    else rows
  | _, _ => rows

/-- An aligned row extended with the three relative-difference columns
computed at source lines 156-158. -/
structure DRow extends ARow where
  bpsd : ℚ
  tpsd : ℚ
  timed : ℚ
deriving DecidableEq, Repr

/-- The delta calculator (source lines 156-158):
`bpsd = (bps_y - bps_x) / bps_x`,
`tpsd = (tps_y - tps_x) / tps_x.replace(0, 1)`,
`timed = (time_y - time_x) / time_x`. -/
def addDeltas (r : ARow) : DRow :=
  { r with
    bpsd := (r.bps_y - r.bps_x) / r.bps_x
    tpsd := (r.tps_y - r.tps_x) / (if r.tps_x = 0 then 1 else r.tps_x)
    timed := (r.time_y - r.time_x) / r.time_x }

/-- The per-row delta step applied to the whole aligned frame. -/
def addDeltasAll (rows : List ARow) : List DRow :=
  rows.map addDeltas

/-- The four value columns each series contributes to the merge
(everything except the join keys `block_number` and `blocks`). -/
structure Vals where
  txs : ℚ
  time : ℚ
  bps : ℚ
  tps : ℚ
deriving DecidableEq, Repr

/-- The value columns of a loaded series row. -/
def valsOf (r : SRow) : Vals :=
  ⟨r.txs, r.time, r.bps, r.tps⟩

/-- The join key of the merge at source line 145:
`on=("block_number", "blocks")`. -/
def SRow.key (r : SRow) : Int × Int :=
  (r.block_number, r.blocks)

/-- Lexicographic order on join keys; an outer merge sorts the union of
keys lexicographically. -/
def keyLt (a b : Int × Int) : Bool :=
  a.1 < b.1 || (a.1 == b.1 && a.2 < b.2)

/-- One row of the merged frame: join keys plus each side's value
columns, `none` standing for the NaN cells an outer join introduces on
the side that has no matching key. -/
structure MRow where
  block_number : Int
  blocks : Int
  xv : Option Vals
  yv : Option Vals
deriving DecidableEq, Repr

/-- Model of `baseline.merge(contender, on=("block_number", "blocks"),
how="outer")` (source line 145) on key-sorted inputs: the union of the
two key sets in lexicographic order, rows with equal keys merged, all
other rows carrying `none` on the absent side. -/
def mergeOuter : List SRow → List SRow → List MRow
  | [], [] => []
  | [], c :: cs => ⟨c.block_number, c.blocks, none, some (valsOf c)⟩ :: mergeOuter [] cs
  | b :: bs, [] => ⟨b.block_number, b.blocks, some (valsOf b), none⟩ :: mergeOuter bs []
  | b :: bs, c :: cs =>
    if b.key = c.key then
      ⟨b.block_number, b.blocks, some (valsOf b), some (valsOf c)⟩ :: mergeOuter bs cs
    else if keyLt b.key c.key then
      ⟨b.block_number, b.blocks, some (valsOf b), none⟩ :: mergeOuter bs (c :: cs)
    else
      ⟨c.block_number, c.blocks, none, some (valsOf c)⟩ :: mergeOuter (b :: bs) cs
termination_by b c => b.length + c.length

/-- Last non-NaN cell of a column prefix (the previous valid value that
linear interpolation draws on). -/
def lastSome (col : List (Int × Option Vals)) : Option (Int × Vals) :=
  col.foldl (fun acc p => match p.2 with | some v => some (p.1, v) | none => acc) none

/-- First non-NaN cell of a column suffix (the next valid value that
linear interpolation draws on). -/
def firstSome : List (Int × Option Vals) → Option (Int × Vals)
  | [] => none
  | (i, some v) :: _ => some (i, v)
  | (_, none) :: rest => firstSome rest

/-- Linear interpolation of the value columns by index position, as
`interpolate(method="index")` does between two valid neighbours. -/
def lerpVals (i0 : Int) (v0 : Vals) (i1 : Int) (v1 : Vals) (bn : Int) : Vals :=
  let t : ℚ := ((bn : ℚ) - (i0 : ℚ)) / ((i1 : ℚ) - (i0 : ℚ))
  ⟨v0.txs + t * (v1.txs - v0.txs),
   v0.time + t * (v1.time - v0.time),
   v0.bps + t * (v1.bps - v0.bps),
   v0.tps + t * (v1.tps - v0.tps)⟩

/-- The value `interpolate(method="index")` leaves at position `k` of a
column: a valid cell is kept; a NaN cell between two valid cells is
linearly interpolated on the index; a NaN cell after the last valid
cell takes the last valid value; a leading NaN cell stays NaN. -/
def fillCol (col : List (Int × Option Vals)) (k : Nat) : Option Vals :=
  match col.get? k with
  | some (_, some v) => some v
  | some (bn, none) =>
    match lastSome (col.take k), firstSome (col.drop (k + 1)) with
    | some (i0, v0), some (i1, v1) => some (lerpVals i0 v0 i1 v1 bn)
    | some (_, v0), none => some v0
    | none, _ => none
  | none => none

/-- Model of `df.interpolate(method="index")` (source line 146) applied to both
sides' value columns. -/
def interpolateDF (m : List MRow) : List MRow :=
  m.enum.map (fun p =>
    { p.2 with
      xv := fillCol (m.map (fun r => (r.block_number, r.xv))) p.1
      yv := fillCol (m.map (fun r => (r.block_number, r.yv))) p.1 })

/-- Model of `.reindex(contender.index)` followed by `reset_index` (source lines
146-147): one output row per contender index label, carrying the merged
row with that `block_number` (pandas requires the label lookup to be
unique; `find?` models the unique case the claims quantify over). -/
def reindexRows (m : List MRow) (idx : List Int) : List (Int × Option MRow) :=
  idx.map (fun i => (i, m.find? (fun r => r.block_number == i)))

/-- Model of `baseline.loc[start:end]` (source lines 140-141): restriction of a
series to the inclusive block-number window. -/
def restrict (s : List SRow) (lo hi : Int) : List SRow :=
  s.filter (fun r => decide (lo ≤ r.block_number ∧ r.block_number ≤ hi))

/-- Block-number index of a series (`df.index` after `set_index`). -/
def seriesIndex (s : List SRow) : List Int :=
  s.map (fun r => r.block_number)

/-- Window start computed by `main` from the two full series. -/
def windowStart (b c : List SRow) : Int :=
  startOf (seriesIndex b) (seriesIndex c)

/-- Window end computed by `main` from the two full series. -/
def windowEnd (b c : List SRow) : Int :=
  endOf (seriesIndex b) (seriesIndex c)

/-- The whole aligner (source lines 130-147): compute the window,
restrict both series, outer-merge, interpolate, and reindex onto the
contender's restricted index. -/
def align (b c : List SRow) : List (Int × Option MRow) :=
  reindexRows
    (interpolateDF
      (mergeOuter (restrict b (windowStart b c) (windowEnd b c))
        (restrict c (windowStart b c) (windowEnd b c))))
    (seriesIndex (restrict c (windowStart b c) (windowEnd b c)))

/-- Model of `np.linspace(a, b, n, dtype=int)` (source lines 43-48): `n` evenly
spaced rationals from `a` to `b` inclusive, each truncated toward zero
to an integer. -/
def linspaceInt (a b : Int) (n : Nat) : List Int :=
  (List.range n).map (fun (i : ℕ) =>
    truncQ ((a : ℚ) + ((b : ℚ) - (a : ℚ)) * (i : ℚ) / ((n : ℚ) - 1)))

/-- One group produced by `groupby(pd.cut(...), observed=True)`: the
interval `(lo, hi]` and the rows falling in it. -/
structure BinGroup where
  lo : Int
  hi : Int
  rows : List DRow
deriving DecidableEq, Repr

/-- The grouping performed by `formatBins` when `bins > 0` (source
lines 42-49): boundaries `linspace(block_number[0] - blocks[0],
block_number[-1], bins, dtype=int)`, rows cut into the left-open
right-closed intervals between consecutive boundaries, and — per
`observed=True` — only the non-empty groups kept.  `pd.cut` first
validates an explicit edge array: it raises ValueError when the edges
decrease anywhere (`bins must increase monotonically`), and — under its
default `duplicates="raise"`, unless the array has length 2 — when they
contain duplicates (`Bin edges must be unique`); integer truncation in
`np.linspace` produces such duplicates whenever the span is below
`bins - 1`.  `none` models that raise (as it does the `iloc` failure on
an empty frame); since the edges are checked pairwise after
monotonicity, duplicate freedom is the adjacent-pair check below. -/
def formatBinsGroups (rows : List DRow) (bins : Int) : Option (List BinGroup) :=
  match rows.head?, rows.getLast? with
  | some f, some l =>
    let bounds := linspaceInt (f.block_number - f.blocks) l.block_number bins.toNat
    if ((bounds.zip bounds.tail).all (fun p => decide (p.1 ≤ p.2)) &&
        ((bounds.zip bounds.tail).all (fun p => decide (p.1 < p.2)) ||
          bounds.length == 2)) then
      some (((bounds.zip bounds.tail).map (fun p =>
        BinGroup.mk p.1 p.2
          (rows.filter (fun r => decide (p.1 < r.block_number ∧ r.block_number ≤ p.2))))).filter
        (fun g => !g.rows.isEmpty))
    else none
  | _, _ => none

/-- One row of the aggregated output `stats_df`: the nine aggregated
columns of the `agg` call at source lines 185-189. -/
structure AggRow where
  bps_x : ℚ
  bps_y : ℚ
  tps_x : ℚ
  tps_y : ℚ
  time_x : ℚ
  time_y : ℚ
  bpsd : ℚ
  tpsd : ℚ
  timed : ℚ
deriving DecidableEq, Repr

/-- Arithmetic mean of a list of rationals (pandas `"mean"`). -/
def qmean (l : List ℚ) : ℚ :=
  l.sum / (l.length : ℚ)

/-- The column reductions of the `agg` dictionary: mean of
`bps_x, bps_y, tps_x, tps_y, bpsd, tpsd, timed` and sum of
`time_x, time_y` over the given rows. -/
def aggOf (rows : List DRow) : AggRow :=
  { bps_x := qmean (rows.map (fun r => r.bps_x))
    bps_y := qmean (rows.map (fun r => r.bps_y))
    tps_x := qmean (rows.map (fun r => r.tps_x))
    tps_y := qmean (rows.map (fun r => r.tps_y))
    time_x := (rows.map (fun r => r.time_x)).sum
    time_y := (rows.map (fun r => r.time_y)).sum
    bpsd := qmean (rows.map (fun r => r.bpsd))
    tpsd := qmean (rows.map (fun r => r.tpsd))
    timed := qmean (rows.map (fun r => r.timed)) }

/-- Model of `formatBins(df, bins).agg(...)` (source lines 185-189).  When
`bins > 0` this is the per-group reduction of the groupby (`none` when
`pd.cut` raises inside `formatBins`); when `bins <= 0`, `formatBins`
returns the plain frame and `DataFrame.agg` collapses every column over
all rows, yielding a single row of aggregates. -/
def aggregate (rows : List DRow) (bins : Int) : Option (List AggRow) :=
  if bins > 0 then
    (formatBinsGroups rows bins).map (fun gs => gs.map (fun g => aggOf g.rows))
  else some [aggOf rows]

/-- Aligned-row fixture with the given block number and unit values. -/
def exTrimRow (bn : Int) : ARow :=
  ⟨bn, 1, 1, 1, 1, 1, 1, 1, 1, 1⟩

/-- Aligned frame with block numbers 0, 3, 8. -/
def exTrimRows : List ARow :=
  [exTrimRow 0, exTrimRow 3, exTrimRow 8]

/-- Aligned frame with block numbers 6, 20. -/
def exTrimRows2 : List ARow :=
  [exTrimRow 6, exTrimRow 20]

/-- Delta-row fixture number one. -/
def exDeltaRow1 : DRow :=
  ⟨⟨1, 1, 1, 1, 1, 1, 1, 1, 1, 1⟩, 2, 2, 2⟩

/-- Delta-row fixture number two. -/
def exDeltaRow2 : DRow :=
  ⟨⟨2, 1, 3, 3, 3, 3, 3, 3, 3, 3⟩, 4, 4, 4⟩

/-- Two-row frame fed to the aggregator. -/
def exDeltaRows : List DRow :=
  [exDeltaRow1, exDeltaRow2]

/-- Delta row sitting exactly on the shifted lower bin boundary: its
block number 0 equals `block_number - blocks = 0 - 0`. -/
def exBinRow0 : DRow :=
  ⟨⟨0, 0, 1, 1, 1, 1, 1, 1, 1, 1⟩, 0, 0, 0⟩

/-- Delta row at block number 10. -/
def exBinRow10 : DRow :=
  ⟨⟨10, 1, 1, 1, 1, 1, 1, 1, 1, 1⟩, 0, 0, 0⟩

/-- Two-row frame fed to the binned grouping. -/
def exBinRows : List DRow :=
  [exBinRow0, exBinRow10]

/-- Raw CSV fixture row: 10 blocks, 50 txs, 2e9 ns. -/
def rawSample : RawRow :=
  ⟨1000, 10, 50, 7, 2000000000⟩

/-- The series row the loader produces from `rawSample`:
2 seconds, 5 bps, 25 tps. -/
def loadedSample : SRow :=
  ⟨1000, 10, 50, 2, 5, 25⟩

/-- One-row baseline series fixture. -/
def exSRowB : SRow :=
  ⟨100, 1, 1, 1, 1, 1⟩

/-- One-row contender series fixture with the same key. -/
def exSRowC : SRow :=
  ⟨100, 1, 2, 2, 2, 2⟩

/-- Baseline series fixture: two rows at block numbers 1000 and 2000,
ten blocks each. -/
def exSeriesB : List SRow :=
  [⟨1000, 10, 50, 2, 5, 25⟩, ⟨2000, 10, 60, 3, 4, 20⟩]

/-- Contender series fixture with the same `(block_number, blocks)`
keys as the baseline but different values. -/
def exSeriesC : List SRow :=
  [⟨1000, 10, 55, 2, 6, 27⟩, ⟨2000, 10, 65, 2, 5, 32⟩]

/-- The merged row the aligner produces from `exSRowB` and `exSRowC`. -/
def exMergedRow : MRow :=
  ⟨100, 1, some (valsOf exSRowB), some (valsOf exSRowC)⟩

theorem truncQ_intCast (m : Int) : truncQ (m : ℚ) = m := by
  unfold truncQ
  split
  · exact Int.floor_intCast m
  · rw [← Int.cast_neg, Int.floor_intCast]
    omega

/-- C1: the guard of source line 134 compares `start` with the larger
maximum and `end` with the smaller minimum, so it can never fire: on
the spec's own no-overlap example (baseline 100..200, contender
500..600) the window is degenerate (`start = 500 > 200 = end`), yet the
guard evaluates to false — the diagnostic is never printed and `exit(1)`
on this path is never reached. -/
theorem c1_overlap_guard_never_fires :
    overlapErrorTriggers [100, 200] [500, 600] = false ∧
    startOf [100, 200] [500, 600] > endOf [100, 200] [500, 600] := by
  decide

/-- C4 counterexample: the argparse surface of `main` registers no
`--csv-output` option. -/
theorem c4_csv_output_absent : ("--csv-output" : String) ∉ cliOptions := by
  decide

/-- C4 amended: the only file-output option is `--markdown-output`;
`--csv-output` does not exist. -/
theorem c4_markdown_output_only :
    ("--markdown-output" : String) ∈ cliOptions ∧
    ("--csv-output" : String) ∉ cliOptions := by
  decide

/-- C5: the delta calculator leaves the aligned columns unchanged and
computes `bpsd = (bps_y - bps_x) / bps_x` and
`timed = (time_y - time_x) / time_x` with unguarded denominators, and
`tpsd = (tps_y - tps_x) / d` with `d = 1` exactly when the baseline tps
is zero and `d = tps_x` otherwise. -/
theorem c5_delta_formulas (r : ARow) :
    (addDeltas r).toARow = r ∧
    (addDeltas r).bpsd = (r.bps_y - r.bps_x) / r.bps_x ∧
    (addDeltas r).timed = (r.time_y - r.time_x) / r.time_x ∧
    (addDeltas r).tpsd = (r.tps_y - r.tps_x) / (if r.tps_x = 0 then 1 else r.tps_x) ∧
    addDeltasAll [r] = [addDeltas r] := by
  exact ⟨rfl, rfl, rfl, rfl, rfl⟩

/-- C6: every loaded row keeps its block number, blocks and txs,
carries `time` equal to the raw nanosecond value divided by 1e9, and —
whenever `time > 0` — satisfies `bps * time = blocks` and
`tps * time = txs` exactly. -/
theorem c6_loader_row (raw : List RawRow) (k : Nat) (q : RawRow) (r : SRow)
    (hq : raw.get? k = some q) (hr : (readStats raw).get? k = some r) :
    r.block_number = q.block_number ∧ r.blocks = q.blocks ∧ r.txs = q.txs ∧
    r.time = q.time / 1000000000 ∧
    (0 < r.time → r.bps * r.time = (r.blocks : ℚ) ∧ r.tps * r.time = r.txs) := by
  unfold readStats at hr
  rw [List.get?_map, hq] at hr
  simp only [Option.map_some', Option.some.injEq] at hr
  subst hr
  refine ⟨rfl, rfl, rfl, rfl, fun ht => ?_⟩
  exact ⟨div_mul_cancel₀ _ (ne_of_gt ht), div_mul_cancel₀ _ (ne_of_gt ht)⟩

/-- C6 witness: the loader theorem applied to the concrete raw row
(1000, 10, 50, gas 7, 2e9 ns). -/
theorem c6_loader_row_witness :
    loadedSample.block_number = rawSample.block_number ∧
    loadedSample.blocks = rawSample.blocks ∧
    loadedSample.txs = rawSample.txs ∧
    loadedSample.time = rawSample.time / 1000000000 ∧
    (0 < loadedSample.time →
      loadedSample.bps * loadedSample.time = (loadedSample.blocks : ℚ) ∧
      loadedSample.tps * loadedSample.time = loadedSample.txs) :=
  c6_loader_row [rawSample] 0 rawSample loadedSample rfl
    (by norm_num [readStats, rawSample, loadedSample, SRow.mk.injEq])

/-- C2 counterexample: with `min_block_number = 5` and aligned block
numbers 0, 3, 8 the span is 8, which does not exceed
`2 * min_block_number = 10`, yet the trim fires and drops the first two
rows — refuting the claimed trigger condition. -/
theorem c2_trim_counterexample :
    trim 5 exTrimRows ≠ exTrimRows ∧
    ¬((exTrimRow 8).block_number - (exTrimRow 0).block_number > 2 * 5) := by
  decide

/-- C2 amended: the trim fires exactly when the span exceeds
`min_block_number` itself (not twice it), and it then keeps exactly the
rows whose block number is at least the absolute cutoff
`min(last - min_block_number, min_block_number)`, a cutoff that never
exceeds `min_block_number`. -/
theorem c2_trim_trigger_and_window (mbn : Int) (rows : List ARow) (f l : ARow)
    (hf : rows.head? = some f) (hl : rows.getLast? = some l) :
    (l.block_number - f.block_number ≤ mbn → trim mbn rows = rows) ∧
    (l.block_number - f.block_number > mbn →
      trim mbn rows =
        rows.filter (fun r =>
          r.block_number ≥ min (l.block_number - mbn) mbn) ∧
      min (l.block_number - mbn) mbn ≤ mbn) := by
  simp only [trim, hf, hl]
  constructor
  · intro h
    rw [if_neg (by omega)]
  · intro h
    rw [if_pos (by omega)]
    exact ⟨rfl, min_le_right _ _⟩

/-- C2 witness: the amended trim theorem applied to
`min_block_number = 5` and block numbers 0, 3, 8. -/
theorem c2_trim_trigger_and_window_witness :
    ((exTrimRow 8).block_number - (exTrimRow 0).block_number ≤ 5 →
      trim 5 exTrimRows = exTrimRows) ∧
    ((exTrimRow 8).block_number - (exTrimRow 0).block_number > 5 →
      trim 5 exTrimRows =
        exTrimRows.filter (fun r =>
          r.block_number ≥ min ((exTrimRow 8).block_number - 5) 5) ∧
      min ((exTrimRow 8).block_number - 5) 5 ≤ 5) :=
  c2_trim_trigger_and_window 5 exTrimRows (exTrimRow 0) (exTrimRow 8) rfl rfl

/-- C10: once the trim fires, the survivors are exactly the rows whose
block number reaches the absolute cutoff
`min(last - min_block_number, min_block_number)`; the cutoff never
exceeds `min_block_number`, so when the first aligned block number is
already at least `min_block_number` the trim removes nothing. -/
theorem c10_trim_absolute_cutoff (mbn : Int) (rows : List ARow) (f l : ARow)
    (hf : rows.head? = some f) (hl : rows.getLast? = some l)
    (htrig : l.block_number > mbn + f.block_number) :
    trim mbn rows =
      rows.filter (fun r =>
        r.block_number ≥ min (l.block_number - mbn) mbn) ∧
    min (l.block_number - mbn) mbn ≤ mbn ∧
    ((∀ r ∈ rows, f.block_number ≤ r.block_number) → mbn ≤ f.block_number →
      trim mbn rows = rows) := by
  have ht : trim mbn rows =
      rows.filter (fun r =>
        r.block_number ≥ min (l.block_number - mbn) mbn) := by
    simp only [trim, hf, hl]
    rw [if_pos htrig]
  refine ⟨ht, min_le_right _ _, fun hall hfm => ?_⟩
  rw [ht, List.filter_eq_self]
  intro a ha
  have := hall a ha
  simp only [ge_iff_le, decide_eq_true_eq]
  omega

/-- C10 witness: the cutoff theorem applied to `min_block_number = 5`
and block numbers 6, 20 (first block number already above the floor, so
no row is removed). -/
theorem c10_trim_absolute_cutoff_witness :
    trim 5 exTrimRows2 =
      exTrimRows2.filter (fun r =>
        r.block_number ≥ min ((exTrimRow 20).block_number - 5) 5) ∧
    min ((exTrimRow 20).block_number - 5) 5 ≤ 5 ∧
    ((∀ r ∈ exTrimRows2, (exTrimRow 6).block_number ≤ r.block_number) →
      5 ≤ (exTrimRow 6).block_number → trim 5 exTrimRows2 = exTrimRows2) :=
  c10_trim_absolute_cutoff 5 exTrimRows2 (exTrimRow 6) (exTrimRow 20) rfl rfl
    (by decide)

/-- C3: with `bins = 0`, `formatBins` returns the plain frame and
`DataFrame.agg` collapses it: the two-row input yields a single row of
column-wise aggregates (means 2 and 3 of values that were 1/3 and 2/4,
sums 4), not one unchanged output row per input row. -/
theorem c3_bins0_single_aggregate_row :
    aggregate exDeltaRows 0 = some [⟨2, 2, 2, 2, 4, 4, 3, 3, 3⟩] ∧
    exDeltaRows.length = 2 := by
  constructor
  · norm_num [aggregate, aggOf, qmean, exDeltaRows, exDeltaRow1, exDeltaRow2,
      AggRow.mk.injEq]
  · rfl

/-- C7 counterexample: `pd.cut` with an explicit boundary array keeps
every interval left-open, including the first.  With rows at block
numbers 0 (blocks 0) and 10 and `bins = 3` the boundaries are
`[0, 5, 10]`; the row at block number 0 sits exactly on the first
boundary and lands in no bucket, so the output holds only the `(5, 10]`
group — under the claimed closed-left first bin it would also appear in
`[0, 5]`. -/
theorem c7_first_bin_excludes_left_edge :
    linspaceInt (exBinRow0.block_number - exBinRow0.blocks)
      exBinRow10.block_number 3 = [0, 5, 10] ∧
    exBinRow0.block_number = 0 ∧
    formatBinsGroups exBinRows 3 = some [⟨5, 10, [exBinRow10]⟩] := by
  have hb : linspaceInt 0 10 3 = [0, 5, 10] := by
    norm_num [linspaceInt, List.range_succ, truncQ]
  refine ⟨hb, rfl, ?_⟩
  change (if (((linspaceInt 0 10 3).zip (linspaceInt 0 10 3).tail).all
        (fun p => decide (p.1 ≤ p.2)) &&
      (((linspaceInt 0 10 3).zip (linspaceInt 0 10 3).tail).all
        (fun p => decide (p.1 < p.2)) || (linspaceInt 0 10 3).length == 2)) then
      some ((((linspaceInt 0 10 3).zip (linspaceInt 0 10 3).tail).map (fun p =>
        BinGroup.mk p.1 p.2 (exBinRows.filter (fun r =>
          decide (p.1 < r.block_number ∧ r.block_number ≤ p.2))))).filter
        (fun g => !g.rows.isEmpty))
    else none) = some [⟨5, 10, [exBinRow10]⟩]
  rw [hb]
  decide

/-- C7 amended: for `bins ≥ 2` the boundary list has `bins` entries,
runs from `first_block_number - first_row_blocks` to
`last_block_number` (each evenly spaced point truncated toward zero to
an integer), and yields `bins - 1` candidate buckets; provided those
truncated boundaries are strictly increasing — otherwise `pd.cut`
raises and the run produces no buckets at all — the grouping succeeds,
and every emitted group is non-empty, spans one pair of consecutive
boundaries, and holds exactly the rows with `lo < block_number ≤ hi` —
all intervals left-open, the first included. -/
theorem c7_binning_structure (rows : List DRow) (bins : Int) (f l : DRow)
    (hf : rows.head? = some f) (hl : rows.getLast? = some l)
    (hb : 2 ≤ bins.toNat)
    (hinc : ((linspaceInt (f.block_number - f.blocks) l.block_number bins.toNat).zip
      (linspaceInt (f.block_number - f.blocks) l.block_number bins.toNat).tail).all
        (fun p => decide (p.1 < p.2)) = true) :
    (linspaceInt (f.block_number - f.blocks) l.block_number bins.toNat).length =
      bins.toNat ∧
    (linspaceInt (f.block_number - f.blocks) l.block_number bins.toNat).head? =
      some (f.block_number - f.blocks) ∧
    (linspaceInt (f.block_number - f.blocks) l.block_number bins.toNat).getLast? =
      some l.block_number ∧
    ((linspaceInt (f.block_number - f.blocks) l.block_number bins.toNat).zip
      (linspaceInt (f.block_number - f.blocks) l.block_number bins.toNat).tail).length =
      bins.toNat - 1 ∧
    ∃ gs, formatBinsGroups rows bins = some gs ∧
      ∀ g ∈ gs,
        g.rows ≠ [] ∧
        (g.lo, g.hi) ∈
          (linspaceInt (f.block_number - f.blocks) l.block_number bins.toNat).zip
            (linspaceInt (f.block_number - f.blocks) l.block_number bins.toNat).tail ∧
        g.rows = rows.filter (fun r =>
          decide (g.lo < r.block_number ∧ r.block_number ≤ g.hi)) := by
  obtain ⟨m, hm, hm1⟩ : ∃ m, bins.toNat = m + 1 ∧ 1 ≤ m :=
    ⟨bins.toNat - 1, by omega, by omega⟩
  refine ⟨?_, ?_, ?_, ?_, ?_⟩
  · simp [linspaceInt]
  · rw [linspaceInt, hm, List.range_succ_eq_map, List.map_cons, List.head?_cons]
    congr 1
    simp only [Nat.cast_zero, mul_zero, zero_div, add_zero]
    exact truncQ_intCast _
  · rw [linspaceInt, hm, List.range_succ, List.map_append, List.map_cons,
      List.map_nil, List.getLast?_concat]
    congr 1
    have hm0 : ((m : ℚ)) ≠ 0 := Nat.cast_ne_zero.mpr (by omega)
    have key : ((f.block_number - f.blocks : Int) : ℚ) +
        ((l.block_number : ℚ) - ((f.block_number - f.blocks : Int) : ℚ)) * (m : ℚ) /
          (((m + 1 : ℕ) : ℚ) - 1) = ((l.block_number : Int) : ℚ) := by
      push_cast
      field_simp
    rw [key, truncQ_intCast]
  · simp only [List.length_zip, List.length_tail, linspaceInt, List.length_map,
      List.length_range]
    omega
  · have hle : ((linspaceInt (f.block_number - f.blocks) l.block_number bins.toNat).zip
        (linspaceInt (f.block_number - f.blocks) l.block_number bins.toNat).tail).all
          (fun p => decide (p.1 ≤ p.2)) = true := by
      rw [List.all_eq_true] at hinc ⊢
      intro x hx
      have hx2 := hinc x hx
      simp only [decide_eq_true_eq] at hx2 ⊢
      omega
    have hfb : formatBinsGroups rows bins = some
        ((((linspaceInt (f.block_number - f.blocks) l.block_number bins.toNat).zip
          (linspaceInt (f.block_number - f.blocks) l.block_number bins.toNat).tail).map
            (fun p => BinGroup.mk p.1 p.2 (rows.filter (fun r =>
              decide (p.1 < r.block_number ∧ r.block_number ≤ p.2))))).filter
          (fun g => !g.rows.isEmpty)) := by
      simp only [formatBinsGroups, hf, hl]
      rw [if_pos (by rw [hle, hinc]; rfl)]
    refine ⟨_, hfb, ?_⟩
    intro g hg
    rw [List.mem_filter] at hg
    obtain ⟨hmem, hne⟩ := hg
    rw [List.mem_map] at hmem
    obtain ⟨p, hp, hpe⟩ := hmem
    subst hpe
    refine ⟨?_, by simpa using hp, rfl⟩
    intro hnil
    rw [hnil] at hne
    simp at hne

/-- C7 witness: the binning-structure theorem applied to the two-row
frame with block numbers 0 and 10 and `bins = 3`. -/
theorem c7_binning_structure_witness :
    (linspaceInt (exBinRow0.block_number - exBinRow0.blocks)
      exBinRow10.block_number (3 : Int).toNat).length = (3 : Int).toNat ∧
    (linspaceInt (exBinRow0.block_number - exBinRow0.blocks)
      exBinRow10.block_number (3 : Int).toNat).head? =
      some (exBinRow0.block_number - exBinRow0.blocks) ∧
    (linspaceInt (exBinRow0.block_number - exBinRow0.blocks)
      exBinRow10.block_number (3 : Int).toNat).getLast? =
      some exBinRow10.block_number ∧
    ((linspaceInt (exBinRow0.block_number - exBinRow0.blocks)
      exBinRow10.block_number (3 : Int).toNat).zip
      (linspaceInt (exBinRow0.block_number - exBinRow0.blocks)
        exBinRow10.block_number (3 : Int).toNat).tail).length =
      (3 : Int).toNat - 1 ∧
    ∃ gs, formatBinsGroups exBinRows 3 = some gs ∧
      ∀ g ∈ gs,
        g.rows ≠ [] ∧
        (g.lo, g.hi) ∈
          (linspaceInt (exBinRow0.block_number - exBinRow0.blocks)
            exBinRow10.block_number (3 : Int).toNat).zip
            (linspaceInt (exBinRow0.block_number - exBinRow0.blocks)
              exBinRow10.block_number (3 : Int).toNat).tail ∧
        g.rows = exBinRows.filter (fun r =>
          decide (g.lo < r.block_number ∧ r.block_number ≤ g.hi)) :=
  c7_binning_structure exBinRows 3 exBinRow0 exBinRow10 rfl rfl (by decide)
    (by
      have hb2 : linspaceInt (exBinRow0.block_number - exBinRow0.blocks)
          exBinRow10.block_number (3 : Int).toNat = [0, 5, 10] := by
        show linspaceInt 0 10 3 = [0, 5, 10]
        norm_num [linspaceInt, List.range_succ, truncQ]
      rw [hb2]
      decide)

/-- C8: every row the aligner emits carries a block number inside the
computed window `[start, end]`, because the reindex target is the
contender index restricted to that window. -/
theorem c8_aligned_block_numbers_in_window (b c : List SRow)
    (hov : windowStart b c ≤ windowEnd b c)
    (p : Int × Option MRow) (hp : p ∈ align b c) :
    windowStart b c ≤ p.1 ∧ p.1 ≤ windowEnd b c := by
  unfold align reindexRows at hp
  rw [List.mem_map] at hp
  obtain ⟨i, hi, hpe⟩ := hp
  have h1 : p.1 = i := by rw [← hpe]
  rw [h1]
  unfold seriesIndex at hi
  rw [List.mem_map] at hi
  obtain ⟨r, hr, hre⟩ := hi
  unfold restrict at hr
  rw [List.mem_filter] at hr
  obtain ⟨-, hcond⟩ := hr
  simp only [decide_eq_true_eq] at hcond
  rw [← hre]
  exact hcond

theorem mergeOuter_of_eq_keys (b c : List SRow)
    (h : b.map SRow.key = c.map SRow.key) :
    mergeOuter b c = List.zipWith (fun rb rc =>
      MRow.mk rc.block_number rc.blocks (some (valsOf rb)) (some (valsOf rc))) b c := by
  induction b generalizing c with
  | nil =>
    cases c with
    | nil => simp [mergeOuter]
    | cons ch ct => simp at h
  | cons bh bt ih =>
    cases c with
    | nil => simp at h
    | cons ch ct =>
      simp only [List.map_cons, List.cons.injEq] at h
      obtain ⟨hk, hks⟩ := h
      have hbn : bh.block_number = ch.block_number := congrArg Prod.fst hk
      have hbl : bh.blocks = ch.blocks := congrArg Prod.snd hk
      rw [mergeOuter, if_pos hk, List.zipWith_cons_cons, hbn, hbl, ih ct hks]

theorem interpolateDF_of_all_some (m : List MRow)
    (h : ∀ r ∈ m, r.xv.isSome ∧ r.yv.isSome) :
    interpolateDF m = m := by
  unfold interpolateDF
  have hpt : ∀ p ∈ m.enum,
      ({ p.2 with
        xv := fillCol (m.map (fun r => (r.block_number, r.xv))) p.1,
        yv := fillCol (m.map (fun r => (r.block_number, r.yv))) p.1 } : MRow) = p.2 := by
    intro p hp
    obtain ⟨k, r⟩ := p
    have hk : m.get? k = some r := List.mk_mem_enum_iff_get?.mp hp
    have hr := h r (List.get?_mem hk)
    obtain ⟨v, hv⟩ := Option.isSome_iff_exists.mp hr.1
    obtain ⟨w, hw⟩ := Option.isSome_iff_exists.mp hr.2
    have hx : fillCol (m.map (fun r2 => (r2.block_number, r2.xv))) k = r.xv := by
      unfold fillCol
      rw [List.get?_map, hk]
      simp [hv]
    have hy : fillCol (m.map (fun r2 => (r2.block_number, r2.yv))) k = r.yv := by
      unfold fillCol
      rw [List.get?_map, hk]
      simp [hw]
    rw [hx, hy]
  calc m.enum.map _ = m.enum.map Prod.snd := List.map_congr_left hpt
    _ = m := List.enum_map_snd m

theorem reindexRows_id (m : List MRow)
    (hnd : (m.map (fun r => r.block_number)).Nodup) :
    reindexRows m (m.map (fun r => r.block_number)) =
      m.map (fun r => (r.block_number, some r)) := by
  induction m with
  | nil => rfl
  | cons hd tl ih =>
    rw [List.map_cons, List.nodup_cons] at hnd
    obtain ⟨hni, hnd2⟩ := hnd
    unfold reindexRows
    simp only [List.map_cons]
    congr 1
    · rw [List.find?_cons_of_pos _ (by simp)]
    · have hstep : ∀ i ∈ tl.map (fun r => r.block_number),
          (i, (hd :: tl).find? (fun r => r.block_number == i)) =
          (i, tl.find? (fun r => r.block_number == i)) := by
        intro i hi
        rw [List.find?_cons_of_neg]
        simp only [beq_iff_eq]
        intro heq
        exact hni (heq ▸ hi)
      rw [List.map_congr_left hstep]
      have ih2 := ih hnd2
      unfold reindexRows at ih2
      exact ih2

theorem mem_zipWith_imp {α β γ : Type} {f : α → β → γ} {l1 : List α}
    {l2 : List β} {x : γ} (h : x ∈ List.zipWith f l1 l2) :
    ∃ a b, x = f a b := by
  induction l1 generalizing l2 with
  | nil => simp at h
  | cons a l ih =>
    cases l2 with
    | nil => simp at h
    | cons b m =>
      rw [List.zipWith_cons_cons, List.mem_cons] at h
      rcases h with h | h
      · exact ⟨a, b, h⟩
      · exact ih h

theorem zipWith_snd_map {α β γ : Type} (g : β → γ) (l1 : List α) (l2 : List β)
    (h : l1.length = l2.length) :
    List.zipWith (fun _ rc => g rc) l1 l2 = l2.map g := by
  induction l1 generalizing l2 with
  | nil =>
    cases l2 with
    | nil => rfl
    | cons b m => simp at h
  | cons a l ih =>
    cases l2 with
    | nil => simp at h
    | cons b m =>
      rw [List.zipWith_cons_cons, List.map_cons, ih m (by simpa using h)]

theorem align_single_pair : align [exSRowB] [exSRowC] = [(100, some exMergedRow)] := by
  unfold align
  rw [show restrict [exSRowB] (windowStart [exSRowB] [exSRowC])
        (windowEnd [exSRowB] [exSRowC]) = [exSRowB] from by decide,
      show restrict [exSRowC] (windowStart [exSRowB] [exSRowC])
        (windowEnd [exSRowB] [exSRowC]) = [exSRowC] from by decide,
      mergeOuter_of_eq_keys _ _ (by decide)]
  decide

/-- C8 witness: the window theorem applied to two one-row series
sharing block number 100. -/
theorem c8_aligned_block_numbers_in_window_witness :
    windowStart [exSRowB] [exSRowC] ≤ (100 : Int) ∧
    (100 : Int) ≤ windowEnd [exSRowB] [exSRowC] :=
  c8_aligned_block_numbers_in_window [exSRowB] [exSRowC] (by decide)
    (100, some exMergedRow)
    (by rw [align_single_pair]; exact List.mem_singleton.mpr rfl)

/-- C9: when the restricted baseline and contender carry identical
`(block_number, blocks)` key sequences (and the contender index has no
duplicates), the outer merge matches every row, the interpolation finds
no NaN to fill, and the reindex is the identity: the aligner output is
exactly the direct row-by-row pairing of the two restricted series. -/
theorem c9_identical_keys_no_op (b c : List SRow)
    (hkeys : (restrict b (windowStart b c) (windowEnd b c)).map SRow.key =
      (restrict c (windowStart b c) (windowEnd b c)).map SRow.key)
    (hnd : ((restrict c (windowStart b c) (windowEnd b c)).map
      (fun r => r.block_number)).Nodup) :
    align b c = List.zipWith (fun rb rc =>
      (rc.block_number,
        some (MRow.mk rc.block_number rc.blocks (some (valsOf rb)) (some (valsOf rc)))))
      (restrict b (windowStart b c) (windowEnd b c))
      (restrict c (windowStart b c) (windowEnd b c)) := by
  have hlen : (restrict b (windowStart b c) (windowEnd b c)).length =
      (restrict c (windowStart b c) (windowEnd b c)).length := by
    have hh := congrArg List.length hkeys
    simpa using hh
  unfold align
  rw [mergeOuter_of_eq_keys _ _ hkeys, interpolateDF_of_all_some]
  · have hbn : (List.zipWith (fun rb rc =>
        MRow.mk rc.block_number rc.blocks (some (valsOf rb)) (some (valsOf rc)))
        (restrict b (windowStart b c) (windowEnd b c))
        (restrict c (windowStart b c) (windowEnd b c))).map
          (fun r => r.block_number) =
        (restrict c (windowStart b c) (windowEnd b c)).map
          (fun r => r.block_number) := by
      rw [List.map_zipWith]
      exact zipWith_snd_map (fun rc => rc.block_number) _ _ hlen
    show reindexRows _
      ((restrict c (windowStart b c) (windowEnd b c)).map (fun r => r.block_number)) = _
    rw [← hbn, reindexRows_id _ (by rw [hbn]; exact hnd), List.map_zipWith]
  · intro r hr
    obtain ⟨a, bb, rfl⟩ := mem_zipWith_imp hr
    exact ⟨rfl, rfl⟩

/-- C9 witness: the no-op theorem applied to two concrete two-row
series sharing the keys (1000, 10) and (2000, 10). -/
theorem c9_identical_keys_no_op_witness :
    align exSeriesB exSeriesC = List.zipWith (fun rb rc =>
      (rc.block_number,
        some (MRow.mk rc.block_number rc.blocks (some (valsOf rb)) (some (valsOf rc)))))
      (restrict exSeriesB (windowStart exSeriesB exSeriesC)
        (windowEnd exSeriesB exSeriesC))
      (restrict exSeriesC (windowStart exSeriesB exSeriesC)
        (windowEnd exSeriesB exSeriesC)) :=
  c9_identical_keys_no_op exSeriesB exSeriesC (by decide) (by decide)
